import Mathlib

set_option maxHeartbeats 1000000

/- Shallow embedding of yksanjo/env-manager, src/src/manager.py.
   A text line is a list of characters.  The Python string primitives used by
   the source (strip, split, substring membership, startswith, lower,
   '\n'.join) are modelled by the executable functions below, and the four
   operations (template parsing, value resolution for generate, validation,
   per-line encryption/decryption) are translated from the source.  The
   external Fernet cipher and the url/email validators are not code of this
   repository; they appear as explicit function parameters. -/

/-- Python str.isspace for the ASCII whitespace characters stripped by
str.strip(). -/
def isPySpace (c : Char) : Bool :=
  c == ' ' || c == '\t' || c == '\n' || c == '\x0b' || c == '\x0c' || c == '\r'

/-- Remove trailing Python whitespace. -/
def dropTrailing (s : List Char) : List Char :=
  (s.reverse.dropWhile isPySpace).reverse

/-- Python str.strip(): remove leading and trailing whitespace. -/
def pyStrip (s : List Char) : List Char :=
  dropTrailing (s.dropWhile isPySpace)

/-- Python `a in s` for a single character. -/
def hasChar (a : Char) : List Char → Bool
  | [] => false
  | c :: cs => c == a || hasChar a cs

/-- Python s.startswith(p). -/
def startsWithL : List Char → List Char → Bool
  | [], _ => true
  | _ :: _, [] => false
  | a :: ps, b :: ss => a == b && startsWithL ps ss

/-- Python `t in s` (substring containment). -/
def containsSub (t : List Char) : List Char → Bool
  | [] => t.isEmpty
  | c :: ss => startsWithL t (c :: ss) || containsSub t ss

/-- Python line.split(sep, 1) at the first occurrence of sep, specialised to
the '=' separator used by encrypt_env_file and decrypt_env_file.  When the
separator is absent the whole line is returned as the first component. -/
def splitEq : List Char → List Char × List Char
  | [] => ([], [])
  | c :: cs => if c = '=' then ([], cs) else (c :: (splitEq cs).1, (splitEq cs).2)

/-- Python content.split(sep) for a one-character separator. -/
def pySplitCh (sep : Char) : List Char → List (List Char)
  | [] => [[]]
  | c :: cs =>
    if c = sep then [] :: pySplitCh sep cs
    else
      match pySplitCh sep cs with
      | [] => [[c]]
      | l :: ls => (c :: l) :: ls

/-- Python sep.join(lines) for a one-character separator. -/
def joinCh (sep : Char) : List (List Char) → List Char
  | [] => []
  | [l] => l
  | l :: l2 :: ls => l ++ sep :: joinCh sep (l2 :: ls)

/-- Python s.lower(), ASCII. -/
def pyLower (s : List Char) : List Char :=
  s.map Char.toLower

/-- The single-quote character used in the validation error messages. -/
def QUOTE : Char := Char.ofNat 39

/-- The list holding the comment-start character, for startswith checks. -/
def HASHP : List Char := ['#']

/-- First character of a template key: [A-Z_]. -/
def isKeyStart (c : Char) : Bool :=
  decide ('A' ≤ c ∧ c ≤ 'Z') || c == '_'

/-- Subsequent characters of a template key: [A-Z0-9_]. -/
def isKeyChar (c : Char) : Bool :=
  isKeyStart c || decide ('0' ≤ c ∧ c ≤ '9')

/-- A nonempty key matching [A-Z_][A-Z0-9_]*. -/
def isKeyName : List Char → Bool
  | [] => false
  | c :: cs => isKeyStart c && cs.all isKeyChar

/-- The declared type of a template variable (manager.py line 43). -/
inductive VType where
  | string
  | int
  | bool
  | url
  | email
deriving DecidableEq

/-- One parsed template declaration: key, default value and the metadata
dictionary built by parse_template_line. -/
structure Decl where
  key : List Char
  dflt : List Char
  required : Bool
  optional : Bool
  encrypted : Bool
  ty : VType
deriving DecidableEq

def REQTOK : List Char := ("required").data
def OPTTOK : List Char := ("optional").data
def ENCTOK : List Char := ("encrypted").data

/-- The type tokens in the priority order of the loop at manager.py line 43. -/
def typeTokens : List (List Char × VType) :=
  [(("string").data, VType.string), (("int").data, VType.int),
   (("bool").data, VType.bool), (("url").data, VType.url),
   (("email").data, VType.email)]

/-- Type detection (manager.py lines 41-48): the first token of typeTokens
contained in the lowered comment wins; the default is string. -/
def detectType (cl : List Char) : VType :=
  match typeTokens.find? (fun p => containsSub p.1 cl) with
  | some p => p.2
  | none => VType.string

/-- The regex match of manager.py line 26 applied to the stripped line:
returns (key, stripped default value, comment after the first hash with its
leading whitespace removed), or none when the pattern does not match.  The
key is the maximal [A-Z_][A-Z0-9_]* run at the start; it must be followed by
optional whitespace and a literal '='; the lazy value group together with the
optional comment group splits the remainder at the first '#'. -/
def matchAssign (s : List Char) : Option (List Char × List Char × List Char) :=
  match s with
  | [] => none
  | c :: cs =>
    if isKeyStart c = true then
      match (cs.dropWhile isKeyChar).dropWhile isPySpace with
      | '=' :: rest2 =>
        match rest2.dropWhile (fun d => !(d == '#')) with
        | [] => some (c :: cs.takeWhile isKeyChar,
                      pyStrip (rest2.takeWhile (fun d => !(d == '#'))), [])
        | _ :: cr => some (c :: cs.takeWhile isKeyChar,
                           pyStrip (rest2.takeWhile (fun d => !(d == '#'))),
                           cr.dropWhile isPySpace)
      | _ => none
    else none

/-- Build the declaration from the matched groups (manager.py lines 30-54):
the metadata booleans are substring checks on the lowered comment, and
required is forced to true when the optional token is absent. -/
def mkDecl (k v c : List Char) : Decl :=
  { key := k
    dflt := v
    required := if containsSub OPTTOK (pyLower c) = true
                then containsSub REQTOK (pyLower c) else true
    optional := containsSub OPTTOK (pyLower c)
    encrypted := containsSub ENCTOK (pyLower c)
    ty := detectType (pyLower c) }

/-- parse_template_line (manager.py lines 14-54). -/
def parse_template_line (line : List Char) : Option Decl :=
  if pyStrip line = [] then none
  else if startsWithL HASHP (pyStrip line) = true then none
  else
    match matchAssign (pyStrip line) with
    | none => none
    | some (k, v, c) => some (mkDecl k v c)

/-- The type-priority policy exactly as the claim states it: the first
matching token among string, int, bool, url, email in that fixed order;
string when none is present.  Written from the claim, to be compared with
detectType. -/
def specFirstType (cl : List Char) : VType :=
  if containsSub (("string").data) cl = true then VType.string
  else if containsSub (("int").data) cl = true then VType.int
  else if containsSub (("bool").data) cl = true then VType.bool
  else if containsSub (("url").data) cl = true then VType.url
  else if containsSub (("email").data) cl = true then VType.email
  else VType.string

/-- Value resolution of generate_env_file (manager.py lines 69-84) for one
declaration: the process environment wins; otherwise in interactive mode the
stripped user response is used, an empty response falling back to the
default; otherwise the default is used.  The ambient environment and the
interactive response are passed explicitly. -/
def resolveValue (envv : Option (List Char)) (interactive : Bool)
    (userInput dfltValue : List Char) : List Char :=
  match envv with
  | some v => v
  | none =>
    if interactive = true then
      if pyStrip userInput = [] then dfltValue else pyStrip userInput
    else dfltValue

/-- The message of manager.py line 118. -/
def missingMsg (k : List Char) : List Char :=
  ("Required variable ").data ++ QUOTE :: (k ++ QUOTE :: (" is missing").data)

/-- The message of manager.py line 129. -/
def intMsg (k : List Char) : List Char :=
  ("Variable ").data ++ QUOTE :: (k ++ QUOTE :: (" must be an integer").data)

/-- The message of manager.py line 132. -/
def boolMsg (k : List Char) : List Char :=
  ("Variable ").data ++ QUOTE :: (k ++ QUOTE :: (" must be a boolean").data)

/-- The message of manager.py line 135. -/
def urlMsg (k : List Char) : List Char :=
  ("Variable ").data ++ QUOTE :: (k ++ QUOTE :: (" must be a valid URL").data)

/-- The message of manager.py line 138. -/
def emailMsg (k : List Char) : List Char :=
  ("Variable ").data ++ QUOTE :: (k ++ QUOTE :: (" must be a valid email").data)

/-- Digit run with single underscores between digits, as accepted by Python
int() after the optional sign. -/
def digitsU : List Char → Bool
  | [] => true
  | c :: cs =>
    if c = '_' then
      match cs with
      | [] => false
      | d :: ds => d.isDigit && digitsU ds
    else c.isDigit && digitsU cs

/-- Python int(value) succeeding: optional surrounding whitespace, optional
sign, then digits with single interior underscores. -/
def pyIntParses (v : List Char) : Bool :=
  match pyStrip v with
  | [] => false
  | c :: cs =>
    if c = '+' ∨ c = '-' then
      match cs with
      | [] => false
      | d :: ds => d.isDigit && digitsU ds
    else c.isDigit && digitsU cs

/-- The boolean literals of manager.py line 131. -/
def boolLits : List (List Char) :=
  [("true").data, ("false").data, ("yes").data, ("no").data,
   ("1").data, ("0").data]

/-- The type checks of manager.py lines 123-138 for one present, nonempty
value.  The url and email validators are external library calls, passed as
parameters. -/
def typeCheckErrors (urlOk emailOk : List Char → Bool) (k : List Char)
    (ty : VType) (v : List Char) : List (List Char) :=
  match ty with
  | VType.string => []
  | VType.int => if pyIntParses v = true then [] else [intMsg k]
  | VType.bool => if boolLits.contains (pyLower v) = true then [] else [boolMsg k]
  | VType.url => if urlOk v = true then [] else [urlMsg k]
  | VType.email => if emailOk v = true then [] else [emailMsg k]

/-- The body of the required-variable loop (manager.py lines 116-138): a
missing or empty value produces the missing message and skips the type check,
otherwise the value is type checked. -/
def checkVar (urlOk emailOk : List Char → Bool) (k : List Char) (ty : VType)
    (lk : Option (List Char)) : List (List Char) :=
  match lk with
  | none => [missingMsg k]
  | some v => if v = [] then [missingMsg k] else typeCheckErrors urlOk emailOk k ty v

/-- Python dict assignment d[k] = m: an existing key keeps its position and
has its value replaced, a new key is appended. -/
def dictInsert (k : List Char) (m : Decl) :
    List (List Char × Decl) → List (List Char × Decl)
  | [] => [(k, m)]
  | p :: rest => if p.1 = k then (k, m) :: rest else p :: dictInsert k m rest

/-- The required_vars dict of manager.py lines 104-113: declarations with
required metadata, in insertion order. -/
def buildRequired (decls : List Decl) : List (List Char × Decl) :=
  decls.foldl (fun d m => if m.required = true then dictInsert m.key m d else d) []

/-- validate_env_file (manager.py lines 96-140) with the template already
read as its list of lines and the dotenv values of the target file passed as
a lookup function (absent keys and keys with a falsy value both reach the
missing branch through the none and empty cases of checkVar). -/
def validate_env_file (urlOk emailOk : List Char → Bool)
    (envVars : List Char → Option (List Char))
    (templateLines : List (List Char)) : List (List Char) :=
  ((buildRequired (templateLines.filterMap parse_template_line)).map
    (fun p => checkVar urlOk emailOk p.1 p.2.ty (envVars p.1))).flatten

/-- The Fernet ciphertext marker prefix checked at manager.py lines 167
and 196. -/
def MARKER : List Char := ("gAAAAAB").data

/-- The per-line encryption step of encrypt_env_file (manager.py lines
157-174).  Lines without '=' and comment lines pass through; otherwise the
line is split at the first '=', the value stripped, and a value not already
carrying the marker is replaced by the ciphertext, the encryption call being
the external Fernet encrypt passed as a parameter returning none on
failure. -/
def encLine (enc : List Char → Option (List Char)) (line : List Char) :
    List Char :=
  if hasChar '=' line = false ∨ startsWithL HASHP (pyStrip line) = true then line
  else if startsWithL MARKER (pyStrip (splitEq line).2) = false then
    match enc (pyStrip (splitEq line).2) with
    | some t => (splitEq line).1 ++ '=' :: t
    | none => line
  else line

/-- The per-line decryption step of decrypt_env_file (manager.py lines
187-203): only values carrying the marker are attempted, and a failing
decryption (none) leaves the line unchanged. -/
def decLine (dec : List Char → Option (List Char)) (line : List Char) :
    List Char :=
  if hasChar '=' line = false ∨ startsWithL HASHP (pyStrip line) = true then line
  else if startsWithL MARKER (pyStrip (splitEq line).2) = true then
    match dec (pyStrip (splitEq line).2) with
    | some p => (splitEq line).1 ++ '=' :: p
    | none => line
  else line

/-- The encryption loop over the list of lines (manager.py lines 155-174). -/
def encLines (enc : List Char → Option (List Char))
    (ls : List (List Char)) : List (List Char) :=
  ls.map (encLine enc)

/-- The decryption loop over the list of lines (manager.py lines 185-203). -/
def decLines (dec : List Char → Option (List Char))
    (ls : List (List Char)) : List (List Char) :=
  ls.map (decLine dec)

/-- encrypt_env_file as a transform of the whole file content (manager.py
lines 154-176): split on newlines, encrypt per line, join with newlines and
append one newline. -/
def encrypt_env_file (enc : List Char → Option (List Char))
    (content : List Char) : List Char :=
  joinCh '\n' ((pySplitCh '\n' content).map (encLine enc)) ++ ['\n']

/-- decrypt_env_file as a transform of the whole file content (manager.py
lines 184-205). -/
def decrypt_env_file (dec : List Char → Option (List Char))
    (content : List Char) : List Char :=
  joinCh '\n' ((pySplitCh '\n' content).map (decLine dec)) ++ ['\n']

/-- A canonical KEY=VALUE assignment line: a [A-Z_][A-Z0-9_]* key, then '=',
then a value that carries no surrounding whitespace and does not start with
the ciphertext marker. -/
def wellFormedAssign (l : List Char) : Bool :=
  hasChar '=' l && isKeyName (splitEq l).1 &&
    (pyStrip (splitEq l).2 == (splitEq l).2) &&
    !(startsWithL MARKER (splitEq l).2)

/-- A concrete cipher satisfying the Fernet contract used in witnesses: the
token is the marker, the plaintext and a final sentinel character, so tokens
carry the marker, never start or end with whitespace, and decrypt exactly to
the plaintext. -/
def toyEnc (v : List Char) : Option (List Char) :=
  some (MARKER ++ v ++ ['E'])

/-- The inverse of toyEnc on its tokens; none on anything not carrying the
marker. -/
def toyDec (t : List Char) : Option (List Char) :=
  if startsWithL MARKER t = true then some ((t.drop 7).dropLast) else none

theorem hasChar_iff (a : Char) (l : List Char) : hasChar a l = true ↔ a ∈ l := by
  induction l with
  | nil => simp [hasChar]
  | cons c cs ih =>
    simp only [hasChar, Bool.or_eq_true, beq_iff_eq, ih, List.mem_cons]
    exact or_congr eq_comm Iff.rfl

theorem startsWithL_append_self (a b : List Char) : startsWithL a (a ++ b) = true := by
  induction a with
  | nil => rfl
  | cons c cs ih => simp [startsWithL, ih]

theorem startsWithL_single_iff (a : Char) (s : List Char) :
    startsWithL [a] s = true ↔ s.head? = some a := by
  cases s with
  | nil => simp [startsWithL]
  | cons b ss =>
    simp [startsWithL]
    exact eq_comm

theorem startsWithL_head_congr (a : Char) (s s' : List Char)
    (h : s.head? = s'.head?) : startsWithL [a] s = startsWithL [a] s' := by
  cases s <;> cases s' <;> simp_all [startsWithL]

theorem dropWhile_append_nil (p : Char → Bool) (a b : List Char)
    (h : a.dropWhile p = []) : (a ++ b).dropWhile p = b.dropWhile p := by
  induction a with
  | nil => rfl
  | cons c a' ih =>
    rw [List.dropWhile_cons] at h
    by_cases hc : p c = true
    · rw [List.cons_append, List.dropWhile_cons, if_pos hc]
      exact ih (by rwa [if_pos hc] at h)
    · rw [if_neg hc] at h
      exact absurd h (by simp)

theorem dropWhile_append_cons (p : Char → Bool) (a b : List Char) (c : Char)
    (r : List Char) (h : a.dropWhile p = c :: r) :
    (a ++ b).dropWhile p = c :: (r ++ b) := by
  induction a with
  | nil => simp at h
  | cons d a' ih =>
    rw [List.dropWhile_cons] at h
    by_cases hd : p d = true
    · rw [if_pos hd] at h
      rw [List.cons_append, List.dropWhile_cons, if_pos hd]
      exact ih h
    · rw [if_neg hd] at h
      rw [List.cons_append, List.dropWhile_cons, if_neg hd]
      simp only [List.cons.injEq] at h
      obtain ⟨rfl, rfl⟩ := h
      rfl

theorem dropWhile_head_false (p : Char → Bool) (l : List Char) (c : Char)
    (r : List Char) (h : l.dropWhile p = c :: r) : p c = false := by
  induction l with
  | nil => simp at h
  | cons d l' ih =>
    rw [List.dropWhile_cons] at h
    by_cases hd : p d = true
    · exact ih (by rwa [if_pos hd] at h)
    · rw [if_neg hd] at h
      simp only [List.cons.injEq] at h
      obtain ⟨rfl, -⟩ := h
      simpa using hd

theorem dropTrailing_head (c : Char) (r : List Char) (hc : isPySpace c = false) :
    (dropTrailing (c :: r)).head? = some c := by
  unfold dropTrailing
  rw [List.reverse_cons]
  cases hd : r.reverse.dropWhile isPySpace with
  | nil =>
    rw [dropWhile_append_nil _ _ _ hd]
    simp [List.dropWhile_cons, hc]
  | cons d r' =>
    rw [dropWhile_append_cons _ _ _ _ _ hd]
    simp

theorem pyStrip_head_indep (kp X Y : List Char) :
    (pyStrip (kp ++ '=' :: X)).head? = (pyStrip (kp ++ '=' :: Y)).head? := by
  unfold pyStrip
  cases hd : kp.dropWhile isPySpace with
  | nil =>
    rw [dropWhile_append_nil _ _ _ hd, dropWhile_append_nil _ _ _ hd]
    simp only [List.dropWhile_cons, show isPySpace ('=') = false by decide]
    simp only [Bool.false_eq_true, if_false]
    rw [dropTrailing_head _ _ (by decide), dropTrailing_head _ _ (by decide)]
  | cons c r =>
    rw [dropWhile_append_cons _ _ _ _ _ hd, dropWhile_append_cons _ _ _ _ _ hd]
    rw [dropTrailing_head _ _ (dropWhile_head_false _ _ _ _ hd),
        dropTrailing_head _ _ (dropWhile_head_false _ _ _ _ hd)]

theorem hash_guard_indep (kp X Y : List Char) :
    startsWithL HASHP (pyStrip (kp ++ '=' :: X)) =
      startsWithL HASHP (pyStrip (kp ++ '=' :: Y)) := by
  unfold HASHP
  exact startsWithL_head_congr _ _ _ (pyStrip_head_indep kp X Y)

theorem mem_of_mem_dropWhile (p : Char → Bool) (a : Char) (l : List Char)
    (h : a ∈ l.dropWhile p) : a ∈ l :=
  (List.dropWhile_sublist p).subset h

theorem mem_of_mem_pyStrip (a : Char) (s : List Char) (h : a ∈ pyStrip s) :
    a ∈ s := by
  unfold pyStrip dropTrailing at h
  rw [List.mem_reverse] at h
  have h2 := mem_of_mem_dropWhile _ _ _ h
  rw [List.mem_reverse] at h2
  exact mem_of_mem_dropWhile _ _ _ h2

theorem splitEq_append (k v : List Char) (hk : ('=') ∉ k) :
    splitEq (k ++ '=' :: v) = (k, v) := by
  induction k with
  | nil => simp [splitEq]
  | cons c k' ih =>
    have hc : ¬ (c = '=') := fun h => hk (h ▸ List.mem_cons_self c k')
    have hk' : ('=') ∉ k' := fun h => hk (List.mem_cons_of_mem _ h)
    simp [splitEq, hc, ih hk']

theorem splitEq_fst_no_eq (l : List Char) : ('=') ∉ (splitEq l).1 := by
  induction l with
  | nil => simp [splitEq]
  | cons c cs ih =>
    by_cases hc : c = '='
    · simp [splitEq, hc]
    · simp only [splitEq, if_neg hc, List.mem_cons]
      push_neg
      exact ⟨fun h => hc h.symm, ih⟩

theorem splitEq_recover (l : List Char) (h : hasChar '=' l = true) :
    l = (splitEq l).1 ++ '=' :: (splitEq l).2 := by
  induction l with
  | nil => simp [hasChar] at h
  | cons c cs ih =>
    by_cases hc : c = '='
    · subst hc; simp [splitEq]
    · have h' : hasChar '=' cs = true := by
        simp only [hasChar, Bool.or_eq_true, beq_iff_eq] at h
        rcases h with h | h
        · exact absurd h hc
        · exact h
      simp only [splitEq, if_neg hc]
      rw [List.cons_append]
      exact congrArg (List.cons c) (ih h')

theorem mem_splitEq_fst (a : Char) (l : List Char) (h : a ∈ (splitEq l).1) :
    a ∈ l := by
  induction l with
  | nil => simp [splitEq] at h
  | cons c cs ih =>
    by_cases hc : c = '='
    · simp [splitEq, hc] at h
    · simp only [splitEq, if_neg hc] at h
      rcases List.mem_cons.mp h with h | h
      · exact h ▸ List.mem_cons_self c cs
      · exact List.mem_cons_of_mem _ (ih h)

theorem mem_splitEq_snd (a : Char) (l : List Char) (h : a ∈ (splitEq l).2) :
    a ∈ l := by
  induction l with
  | nil => simp [splitEq] at h
  | cons c cs ih =>
    by_cases hc : c = '='
    · simp only [splitEq, if_pos hc] at h
      exact List.mem_cons_of_mem _ h
    · simp only [splitEq, if_neg hc] at h
      exact List.mem_cons_of_mem _ (ih h)

theorem keyStart_not_space (c : Char) (h : isKeyStart c = true) :
    isPySpace c = false := by
  by_contra hs
  rw [Bool.not_eq_false] at hs
  simp only [isPySpace, Bool.or_eq_true, beq_iff_eq] at hs
  rcases hs with ((((h1 | h1) | h1) | h1) | h1) | h1 <;> subst h1 <;>
    exact absurd h (by decide)

theorem keyStart_ne_hash (c : Char) (h : isKeyStart c = true) : ¬ (c = '#') := by
  intro e
  subst e
  exact absurd h (by decide)

theorem keyChar_ne_eq (c : Char) (h : isKeyChar c = true) : ¬ (c = '=') := by
  intro e
  subst e
  exact absurd h (by decide)

theorem isKeyName_no_eq (k : List Char) (h : isKeyName k = true) : ('=') ∉ k := by
  cases k with
  | nil => simp
  | cons c cs =>
    simp only [isKeyName, Bool.and_eq_true, List.all_eq_true] at h
    intro hm
    rcases List.mem_cons.mp hm with h1 | h1
    · exact keyChar_ne_eq c (by simp [isKeyChar, h.1]) h1.symm
    · exact keyChar_ne_eq _ (h.2 _ h1) rfl

theorem hasChar_append_eq (k v : List Char) : hasChar '=' (k ++ '=' :: v) = true := by
  rw [hasChar_iff]
  simp

theorem hash_guard_keyname (k v : List Char) (hk : isKeyName k = true) :
    startsWithL HASHP (pyStrip (k ++ '=' :: v)) = false := by
  cases k with
  | nil => simp [isKeyName] at hk
  | cons c cs =>
    have hks : isKeyStart c = true := by
      simp only [isKeyName, Bool.and_eq_true] at hk
      exact hk.1
    have hsp : isPySpace c = false := keyStart_not_space c hks
    have hh : (pyStrip ((c :: cs) ++ '=' :: v)).head? = some c := by
      unfold pyStrip
      rw [List.cons_append, List.dropWhile_cons, if_neg (by simp [hsp])]
      exact dropTrailing_head c _ hsp
    have hne : ¬ (startsWithL HASHP (pyStrip ((c :: cs) ++ '=' :: v)) = true) := by
      unfold HASHP
      rw [startsWithL_single_iff, hh]
      intro hcontra
      exact keyStart_ne_hash c hks (by injection hcontra)
    exact Bool.eq_false_iff.mpr hne

theorem pySplit_ne_nil (sep : Char) (s : List Char) : pySplitCh sep s ≠ [] := by
  induction s with
  | nil => simp [pySplitCh]
  | cons c cs ih =>
    by_cases hc : c = sep
    · simp [pySplitCh, hc]
    · simp only [pySplitCh, if_neg hc]
      cases hx : pySplitCh sep cs with
      | nil => simp
      | cons l ls => simp

theorem mem_pySplit_not_sep (sep : Char) (s : List Char) :
    ∀ l ∈ pySplitCh sep s, sep ∉ l := by
  induction s with
  | nil =>
    intro l hl
    simp [pySplitCh] at hl
    simp [hl]
  | cons c cs ih =>
    intro l hl
    by_cases hc : c = sep
    · subst hc
      simp only [pySplitCh, if_pos rfl] at hl
      rcases List.mem_cons.mp hl with h | h
      · simp [h]
      · exact ih l h
    · simp only [pySplitCh, if_neg hc] at hl
      cases hx : pySplitCh sep cs with
      | nil => exact absurd hx (pySplit_ne_nil sep cs)
      | cons lh lt =>
        rw [hx] at hl
        rcases List.mem_cons.mp hl with h | h
        · subst h
          intro hmem
          rcases List.mem_cons.mp hmem with h | h
          · exact hc h.symm
          · exact ih lh (hx ▸ List.mem_cons_self lh lt) h
        · exact ih l (hx ▸ List.mem_cons_of_mem lh h)

theorem pySplit_no_sep (sep : Char) (l : List Char) (h : sep ∉ l) :
    pySplitCh sep l = [l] := by
  induction l with
  | nil => rfl
  | cons c cs ih =>
    have hc : ¬ (c = sep) := fun e => h (List.mem_cons.mpr (Or.inl e.symm))
    have h' : sep ∉ cs := fun hm => h (List.mem_cons_of_mem _ hm)
    simp only [pySplitCh, if_neg hc]
    rw [ih h']

theorem joinCh_cons (sep : Char) (l : List Char) (L : List (List Char))
    (hL : L ≠ []) : joinCh sep (l :: L) = l ++ sep :: joinCh sep L := by
  cases L with
  | nil => exact absurd rfl hL
  | cons l2 ls => rfl

theorem pySplit_append_sep (sep : Char) (s : List Char) :
    pySplitCh sep (s ++ [sep]) = pySplitCh sep s ++ [[]] := by
  induction s with
  | nil => simp [pySplitCh]
  | cons c cs ih =>
    by_cases hc : c = sep
    · subst hc
      rw [List.cons_append]
      simp only [pySplitCh, if_pos rfl]
      rw [ih]
      rfl
    · rw [List.cons_append]
      simp only [pySplitCh, if_neg hc]
      rw [ih]
      cases hx : pySplitCh sep cs with
      | nil => exact absurd hx (pySplit_ne_nil sep cs)
      | cons lh lt => simp

theorem pySplit_append_sep_cons (sep : Char) (l X : List Char) (h : sep ∉ l) :
    pySplitCh sep (l ++ sep :: X) = l :: pySplitCh sep X := by
  induction l with
  | nil => simp [pySplitCh]
  | cons c cs ih =>
    have hc : ¬ (c = sep) := fun e => h (List.mem_cons.mpr (Or.inl e.symm))
    have h' : sep ∉ cs := fun hm => h (List.mem_cons_of_mem _ hm)
    rw [List.cons_append]
    simp only [pySplitCh, if_neg hc]
    rw [ih h']

theorem pySplit_join (sep : Char) (L : List (List Char)) (hL : L ≠ [])
    (h : ∀ l ∈ L, sep ∉ l) : pySplitCh sep (joinCh sep L) = L := by
  induction L with
  | nil => exact absurd rfl hL
  | cons l L' ih =>
    cases L' with
    | nil => exact pySplit_no_sep sep l (h l (List.mem_cons_self l []))
    | cons l2 ls =>
      rw [joinCh_cons sep l (l2 :: ls) (by simp)]
      rw [pySplit_append_sep_cons sep l _ (h l (List.mem_cons_self _ _))]
      rw [ih (by simp) (fun x hx => h x (List.mem_cons_of_mem _ hx))]

theorem joinCh_concat_nil (sep : Char) (L : List (List Char)) (hL : L ≠ []) :
    joinCh sep (L ++ [[]]) = joinCh sep L ++ [sep] := by
  induction L with
  | nil => exact absurd rfl hL
  | cons l L' ih =>
    cases L' with
    | nil => rfl
    | cons l2 ls =>
      rw [List.cons_append, joinCh_cons sep l ((l2 :: ls) ++ [[]]) (by simp),
          joinCh_cons sep l (l2 :: ls) (by simp), ih (by simp)]
      simp

theorem encLine_guard (enc : List Char → Option (List Char)) (l : List Char)
    (hg : hasChar '=' l = false ∨ startsWithL HASHP (pyStrip l) = true) :
    encLine enc l = l := by
  unfold encLine
  rw [if_pos hg]

theorem decLine_guard (dec : List Char → Option (List Char)) (l : List Char)
    (hg : hasChar '=' l = false ∨ startsWithL HASHP (pyStrip l) = true) :
    decLine dec l = l := by
  unfold decLine
  rw [if_pos hg]

theorem encLine_skip (enc : List Char → Option (List Char)) (l : List Char)
    (hm : startsWithL MARKER (pyStrip (splitEq l).2) = true) :
    encLine enc l = l := by
  unfold encLine
  by_cases hg : (hasChar '=' l = false ∨ startsWithL HASHP (pyStrip l) = true)
  · rw [if_pos hg]
  · rw [if_neg hg, if_neg (by simp [hm])]

theorem decLine_skip (dec : List Char → Option (List Char)) (l : List Char)
    (hm : startsWithL MARKER (pyStrip (splitEq l).2) = false) :
    decLine dec l = l := by
  unfold decLine
  by_cases hg : (hasChar '=' l = false ∨ startsWithL HASHP (pyStrip l) = true)
  · rw [if_pos hg]
  · rw [if_neg hg, if_neg (by simp [hm])]

theorem encLine_none (enc : List Char → Option (List Char)) (l : List Char)
    (he : enc (pyStrip (splitEq l).2) = none) : encLine enc l = l := by
  unfold encLine
  by_cases hg : (hasChar '=' l = false ∨ startsWithL HASHP (pyStrip l) = true)
  · rw [if_pos hg]
  · by_cases hmk : startsWithL MARKER (pyStrip (splitEq l).2) = false
    · rw [if_neg hg, if_pos hmk, he]
    · rw [if_neg hg, if_neg hmk]

theorem decLine_fail (dec : List Char → Option (List Char)) (l : List Char)
    (hm : startsWithL MARKER (pyStrip (splitEq l).2) = true)
    (hf : dec (pyStrip (splitEq l).2) = none) : decLine dec l = l := by
  unfold decLine
  by_cases hg : (hasChar '=' l = false ∨ startsWithL HASHP (pyStrip l) = true)
  · rw [if_pos hg]
  · rw [if_neg hg, if_pos hm, hf]

theorem encLine_assign (enc : List Char → Option (List Char)) (k v t : List Char)
    (hk : ('=') ∉ k)
    (hpre : startsWithL HASHP (pyStrip (k ++ '=' :: v)) = false)
    (hm : startsWithL MARKER (pyStrip v) = false)
    (he : enc (pyStrip v) = some t) :
    encLine enc (k ++ '=' :: v) = k ++ '=' :: t := by
  have h1 : (splitEq (k ++ '=' :: v)).1 = k := by rw [splitEq_append k v hk]
  have h2 : (splitEq (k ++ '=' :: v)).2 = v := by rw [splitEq_append k v hk]
  have hguard : ¬ (hasChar '=' (k ++ '=' :: v) = false ∨
      startsWithL HASHP (pyStrip (k ++ '=' :: v)) = true) := by
    push_neg
    exact ⟨by simp [hasChar_append_eq], by simp [hpre]⟩
  unfold encLine
  rw [if_neg hguard, h2, if_pos hm, he, h1]

theorem decLine_assign (dec : List Char → Option (List Char)) (k v p : List Char)
    (hk : ('=') ∉ k)
    (hpre : startsWithL HASHP (pyStrip (k ++ '=' :: v)) = false)
    (hm : startsWithL MARKER (pyStrip v) = true)
    (hd : dec (pyStrip v) = some p) :
    decLine dec (k ++ '=' :: v) = k ++ '=' :: p := by
  have h1 : (splitEq (k ++ '=' :: v)).1 = k := by rw [splitEq_append k v hk]
  have h2 : (splitEq (k ++ '=' :: v)).2 = v := by rw [splitEq_append k v hk]
  have hguard : ¬ (hasChar '=' (k ++ '=' :: v) = false ∨
      startsWithL HASHP (pyStrip (k ++ '=' :: v)) = true) := by
    push_neg
    exact ⟨by simp [hasChar_append_eq], by simp [hpre]⟩
  unfold decLine
  rw [if_neg hguard, h2, if_pos hm, hd, h1]

theorem encLine_idem (enc : List Char → Option (List Char))
    (hmark : ∀ v t, enc v = some t → startsWithL MARKER t = true)
    (hstrip : ∀ v t, enc v = some t → pyStrip t = t)
    (l : List Char) : encLine enc (encLine enc l) = encLine enc l := by
  by_cases hg : (hasChar '=' l = false ∨ startsWithL HASHP (pyStrip l) = true)
  · rw [encLine_guard enc l hg, encLine_guard enc l hg]
  · push_neg at hg
    obtain ⟨hg1, hg2⟩ := hg
    have hg1' : hasChar '=' l = true := by
      cases hx : hasChar '=' l
      · exact absurd hx hg1
      · rfl
    have hg2' : startsWithL HASHP (pyStrip l) = false := by
      cases hx : startsWithL HASHP (pyStrip l)
      · rfl
      · exact absurd hx hg2
    by_cases hmk : startsWithL MARKER (pyStrip (splitEq l).2) = true
    · rw [encLine_skip enc l hmk, encLine_skip enc l hmk]
    · have hmk' : startsWithL MARKER (pyStrip (splitEq l).2) = false := by
        cases hx : startsWithL MARKER (pyStrip (splitEq l).2)
        · rfl
        · exact absurd hx hmk
      cases he : enc (pyStrip (splitEq l).2) with
      | none => rw [encLine_none enc l he, encLine_none enc l he]
      | some t =>
        have hfirst : encLine enc l = (splitEq l).1 ++ '=' :: t := by
          unfold encLine
          rw [if_neg (by push_neg; exact ⟨by simp [hg1'], by simp [hg2']⟩),
              if_pos hmk', he]
        rw [hfirst]
        apply encLine_skip
        have hsnd : (splitEq ((splitEq l).1 ++ '=' :: t)).2 = t := by
          rw [splitEq_append _ _ (splitEq_fst_no_eq l)]
        rw [hsnd, hstrip _ _ he]
        exact hmark _ _ he

theorem roundtrip_line (enc dec : List Char → Option (List Char))
    (hrt : ∀ v t, enc v = some t → dec t = some v)
    (hmark : ∀ v t, enc v = some t → startsWithL MARKER t = true)
    (hstrip : ∀ v t, enc v = some t → pyStrip t = t)
    (l : List Char) (hwf : wellFormedAssign l = true) :
    decLine dec (encLine enc l) = l := by
  simp only [wellFormedAssign, Bool.and_eq_true, beq_iff_eq,
    Bool.not_eq_true'] at hwf
  obtain ⟨⟨⟨h1, h2⟩, h3⟩, h4⟩ := hwf
  have hrec := splitEq_recover l h1
  have hf := splitEq_fst_no_eq l
  have hpre : startsWithL HASHP (pyStrip l) = false := by
    rw [hrec]
    exact hash_guard_keyname _ _ h2
  have hm4 : startsWithL MARKER (pyStrip (splitEq l).2) = false := by
    rw [h3]
    exact h4
  cases he : enc (pyStrip (splitEq l).2) with
  | none =>
    rw [encLine_none enc l he]
    exact decLine_skip dec l hm4
  | some t =>
    have henc : encLine enc l = (splitEq l).1 ++ '=' :: t := by
      unfold encLine
      rw [if_neg (by push_neg; exact ⟨by simp [h1], by simp [hpre]⟩),
          if_pos hm4, he]
    rw [henc]
    have hdec : decLine dec ((splitEq l).1 ++ '=' :: t) =
        (splitEq l).1 ++ '=' :: (splitEq l).2 := by
      apply decLine_assign dec _ _ _ hf
      · exact hash_guard_keyname _ _ h2
      · rw [hstrip _ _ he]
        exact hmark _ _ he
      · rw [hstrip _ _ he]
        have hd := hrt _ _ he
        rw [h3] at hd
        exact hd
    rw [hdec, ← hrec]

theorem boolNotFalse {b : Bool} (h : ¬ b = false) : b = true := by
  cases b
  · exact absurd rfl h
  · rfl

theorem boolNotTrue {b : Bool} (h : ¬ b = true) : b = false := by
  cases b
  · rfl
  · exact absurd rfl h

theorem encLine_no_nl (enc : List Char → Option (List Char))
    (hnl : ∀ v t, enc v = some t → ('\n') ∉ v → ('\n') ∉ t)
    (l : List Char) (hl : ('\n') ∉ l) : ('\n') ∉ encLine enc l := by
  by_cases hg : (hasChar '=' l = false ∨ startsWithL HASHP (pyStrip l) = true)
  · rw [encLine_guard enc l hg]; exact hl
  · by_cases hmk : startsWithL MARKER (pyStrip (splitEq l).2) = false
    · cases he : enc (pyStrip (splitEq l).2) with
      | none => rw [encLine_none enc l he]; exact hl
      | some t =>
        have hx : encLine enc l = (splitEq l).1 ++ '=' :: t := by
          unfold encLine
          rw [if_neg hg, if_pos hmk, he]
        rw [hx]
        intro hmem
        rcases List.mem_append.mp hmem with h | h
        · exact hl (mem_splitEq_fst _ _ h)
        · rcases List.mem_cons.mp h with h | h
          · exact absurd h (by decide)
          · have hv : ('\n') ∉ pyStrip (splitEq l).2 :=
              fun hh => hl (mem_splitEq_snd _ _ (mem_of_mem_pyStrip _ _ hh))
            exact hnl _ _ he hv h
    · rw [encLine_skip enc l (boolNotFalse hmk)]
      exact hl

theorem decLine_no_nl (dec : List Char → Option (List Char))
    (hnl : ∀ v t, dec v = some t → ('\n') ∉ v → ('\n') ∉ t)
    (l : List Char) (hl : ('\n') ∉ l) : ('\n') ∉ decLine dec l := by
  by_cases hg : (hasChar '=' l = false ∨ startsWithL HASHP (pyStrip l) = true)
  · rw [decLine_guard dec l hg]; exact hl
  · by_cases hmk : startsWithL MARKER (pyStrip (splitEq l).2) = true
    · cases hd : dec (pyStrip (splitEq l).2) with
      | none => rw [decLine_fail dec l hmk hd]; exact hl
      | some p =>
        have hx : decLine dec l = (splitEq l).1 ++ '=' :: p := by
          unfold decLine
          rw [if_neg hg, if_pos hmk, hd]
        rw [hx]
        intro hmem
        rcases List.mem_append.mp hmem with h | h
        · exact hl (mem_splitEq_fst _ _ h)
        · rcases List.mem_cons.mp h with h | h
          · exact absurd h (by decide)
          · have hv : ('\n') ∉ pyStrip (splitEq l).2 :=
              fun hh => hl (mem_splitEq_snd _ _ (mem_of_mem_pyStrip _ _ hh))
            exact hnl _ _ hd hv h
    · rw [decLine_skip dec l (boolNotTrue hmk)]
      exact hl

theorem pyStrip_sandwich (c d : Char) (m : List Char) (hc : isPySpace c = false)
    (hd : isPySpace d = false) : pyStrip (c :: (m ++ [d])) = c :: (m ++ [d]) := by
  unfold pyStrip
  rw [List.dropWhile_cons, if_neg (by simp [hc])]
  unfold dropTrailing
  have hrev : (c :: (m ++ [d])).reverse = d :: (m.reverse ++ [c]) := by simp
  rw [hrev, List.dropWhile_cons, if_neg (by simp [hd]), ← hrev,
      List.reverse_reverse]

theorem toy_mark : ∀ v t, toyEnc v = some t → startsWithL MARKER t = true := by
  intro v t h
  simp only [toyEnc, Option.some.injEq] at h
  subst h
  exact startsWithL_append_self MARKER (v ++ ['E'])

theorem toy_rt : ∀ v t, toyEnc v = some t → toyDec t = some v := by
  intro v t h
  simp only [toyEnc, Option.some.injEq] at h
  subst h
  unfold toyDec
  rw [List.append_assoc]
  rw [if_pos (startsWithL_append_self MARKER (v ++ ['E']))]
  have h7 : (MARKER ++ (v ++ ['E'])).drop 7 = v ++ ['E'] := by
    rw [show (7 : Nat) = MARKER.length by decide]
    exact List.drop_left MARKER (v ++ ['E'])
  rw [h7, List.dropLast_concat]

theorem toy_strip : ∀ v t, toyEnc v = some t → pyStrip t = t := by
  intro v t h
  simp only [toyEnc, Option.some.injEq] at h
  subst h
  have h1 : MARKER = 'g' :: ("AAAAAB").data := rfl
  rw [h1, List.cons_append, List.cons_append]
  exact pyStrip_sandwich 'g' 'E' _ (by decide) (by decide)

theorem toy_enc_nl : ∀ v t, toyEnc v = some t → ('\n') ∉ v → ('\n') ∉ t := by
  intro v t h hv
  simp only [toyEnc, Option.some.injEq] at h
  subst h
  intro hmem
  rcases List.mem_append.mp hmem with h | h
  · rcases List.mem_append.mp h with h2 | h2
    · exact absurd h2 (by decide)
    · exact hv h2
  · exact absurd h (by decide)

theorem toy_dec_nl : ∀ v t, toyDec v = some t → ('\n') ∉ v → ('\n') ∉ t := by
  intro v t h hv
  unfold toyDec at h
  by_cases hm : startsWithL MARKER v = true
  · rw [if_pos hm] at h
    simp only [Option.some.injEq] at h
    subst h
    intro hmem
    exact hv (List.drop_subset _ _ (List.dropLast_subset _ hmem))
  · rw [if_neg hm] at h
    exact absurd h (by simp)

theorem missingMsg_head (k : List Char) : (missingMsg k).head? = some ('R') := rfl

theorem intMsg_head (k : List Char) : (intMsg k).head? = some ('V') := rfl

theorem boolMsg_head (k : List Char) : (boolMsg k).head? = some ('V') := rfl

theorem urlMsg_head (k : List Char) : (urlMsg k).head? = some ('V') := rfl

theorem emailMsg_head (k : List Char) : (emailMsg k).head? = some ('V') := rfl

theorem missing_not_mem_typeErrors (u e : List Char → Bool) (k k2 : List Char)
    (ty : VType) (v : List Char) :
    missingMsg k ∉ typeCheckErrors u e k2 ty v := by
  intro h
  cases ty with
  | string => simp [typeCheckErrors] at h
  | int =>
    simp only [typeCheckErrors] at h
    split at h
    · simp at h
    · rw [List.mem_singleton] at h
      have h2 := congrArg List.head? h
      rw [missingMsg_head, intMsg_head] at h2
      exact absurd h2 (by decide)
  | bool =>
    simp only [typeCheckErrors] at h
    split at h
    · simp at h
    · rw [List.mem_singleton] at h
      have h2 := congrArg List.head? h
      rw [missingMsg_head, boolMsg_head] at h2
      exact absurd h2 (by decide)
  | url =>
    simp only [typeCheckErrors] at h
    split at h
    · simp at h
    · rw [List.mem_singleton] at h
      have h2 := congrArg List.head? h
      rw [missingMsg_head, urlMsg_head] at h2
      exact absurd h2 (by decide)
  | email =>
    simp only [typeCheckErrors] at h
    split at h
    · simp at h
    · rw [List.mem_singleton] at h
      have h2 := congrArg List.head? h
      rw [missingMsg_head, emailMsg_head] at h2
      exact absurd h2 (by decide)

theorem checkVar_missing (u e : List Char → Bool) (k : List Char) (ty : VType)
    (lk : Option (List Char)) :
    (missingMsg k ∈ checkVar u e k ty lk ↔ (lk = none ∨ lk = some [])) ∧
    ((lk = none ∨ lk = some []) → checkVar u e k ty lk = [missingMsg k]) := by
  cases lk with
  | none => exact ⟨by simp [checkVar], fun _ => rfl⟩
  | some v =>
    by_cases hv : v = []
    · subst hv
      exact ⟨by simp [checkVar], fun _ => by simp [checkVar]⟩
    · constructor
      · constructor
        · intro hm
          simp only [checkVar, if_neg hv] at hm
          exact absurd hm (missing_not_mem_typeErrors u e k k ty v)
        · rintro (h | h)
          · exact absurd h (by simp)
          · rw [Option.some.injEq] at h
            exact absurd h hv
      · rintro (h | h)
        · exact absurd h (by simp)
        · rw [Option.some.injEq] at h
          exact absurd h hv

theorem detectType_eq_spec (cl : List Char) : detectType cl = specFirstType cl := by
  unfold detectType specFirstType typeTokens
  cases h1 : containsSub (("string").data) cl <;>
  cases h2 : containsSub (("int").data) cl <;>
  cases h3 : containsSub (("bool").data) cl <;>
  cases h4 : containsSub (("url").data) cl <;>
  cases h5 : containsSub (("email").data) cl <;>
    simp [List.find?, h1, h2, h3, h4, h5]

theorem parse_eq_mkDecl (line : List Char) (k v c : List Char) (d : Decl)
    (hm : matchAssign (pyStrip line) = some (k, v, c))
    (hp : parse_template_line line = some d) : d = mkDecl k v c := by
  unfold parse_template_line at hp
  rw [hm] at hp
  by_cases hA : pyStrip line = []
  · rw [if_pos hA] at hp
    exact absurd hp (by simp)
  · rw [if_neg hA] at hp
    by_cases hB : startsWithL HASHP (pyStrip line) = true
    · rw [if_pos hB] at hp
      exact absurd hp (by simp)
    · rw [if_neg hB] at hp
      simp at hp
      exact hp.symm

/-- Claim C1, counterexample: the round trip fails as stated on the single
well-formed assignment line with a space after the equals sign, because
encryption strips the value and decryption writes it back without the
space.  The cipher is a concrete instance of the Fernet contract; the loss
happens in the line handling, before and after the cipher calls. -/
theorem c1_counterexample :
    ¬ (decLines toyDec (encLines toyEnc [("A= b").data]) = [("A= b").data]) := by
  decide

/-- Claim C1 (amended): for any cipher pair obeying the Fernet contract
(decrypt inverts encrypt, tokens carry the gAAAAAB marker and no surrounding
whitespace), decrypting the encryption of a list of lines returns the lines,
provided every line is a canonical assignment: key matching the template
grammar, then an equals sign, then a value with no surrounding whitespace
that does not already carry the ciphertext marker. -/
theorem c1_roundtrip (enc dec : List Char → Option (List Char))
    (hrt : ∀ v t, enc v = some t → dec t = some v)
    (hmark : ∀ v t, enc v = some t → startsWithL MARKER t = true)
    (hstrip : ∀ v t, enc v = some t → pyStrip t = t)
    (ls : List (List Char)) (hwf : ∀ l ∈ ls, wellFormedAssign l = true) :
    decLines dec (encLines enc ls) = ls := by
  induction ls with
  | nil => rfl
  | cons l ls ih =>
    unfold encLines decLines
    rw [List.map_cons, List.map_cons,
        roundtrip_line enc dec hrt hmark hstrip l (hwf l (List.mem_cons_self l ls))]
    have hrest := ih (fun x hx => hwf x (List.mem_cons_of_mem l hx))
    unfold encLines decLines at hrest
    rw [hrest]

/-- Claim C1, witness: the amended round trip evaluated on two concrete
canonical assignment lines with the toy Fernet instance. -/
theorem c1_roundtrip_witness :
    decLines toyDec (encLines toyEnc [("A=x").data, ("B=y").data])
      = [("A=x").data, ("B=y").data] :=
  c1_roundtrip toyEnc toyDec toy_rt toy_mark toy_strip
    [("A=x").data, ("B=y").data] (by decide)

/-- Claim C2, counterexample: on the template line whose comment contains
both the optional and the required token, parse_template_line yields
required = true, where the claim demands required = false. -/
theorem c2_counterexample :
    (parse_template_line (("A=1  # optional, required").data)).map Decl.required
      = some true ∧
    ¬ ((parse_template_line (("A=1  # optional, required").data)).map Decl.required
      = some false) := by
  constructor
  · decide
  · decide

/-- Claim C2 (amended): a parsed declaration has required = true exactly when
the lowered comment contains the required token or lacks the optional token;
the optional token forces required = false only when the required token is
absent, so when both tokens appear required is true. -/
theorem c2_required_policy (line k v c : List Char) (d : Decl)
    (hm : matchAssign (pyStrip line) = some (k, v, c))
    (hp : parse_template_line line = some d) :
    d.required = (containsSub REQTOK (pyLower c) ||
      !(containsSub OPTTOK (pyLower c))) := by
  rw [parse_eq_mkDecl line k v c d hm hp]
  simp only [mkDecl]
  by_cases ho : containsSub OPTTOK (pyLower c) = true
  · rw [if_pos ho, ho]
    simp
  · rw [if_neg ho, boolNotTrue ho]
    simp

/-- Claim C2, witness: the amended policy evaluated on a concrete line whose
comment carries only the optional token. -/
theorem c2_required_policy_witness :
    (Decl.mk (("B").data) (("2").data) false true false VType.string).required
      = (containsSub REQTOK (pyLower (("optional").data)) ||
         !(containsSub OPTTOK (pyLower (("optional").data)))) :=
  c2_required_policy (("B=2  # optional").data) (("B").data) (("2").data)
    (("optional").data)
    (Decl.mk (("B").data) (("2").data) false true false VType.string)
    (by decide) (by decide)

/-- Claim C3: for every file content, the lines of the content written by
encrypt_env_file are exactly the per-line transforms of the input lines in
order, followed by one empty final segment - that is, the output is the
joined transformed lines followed by exactly one trailing newline, whether or
not the input content ended with a newline - and likewise for
decrypt_env_file.  The cipher hypotheses say tokens introduce no newline. -/
theorem c3_trailing_newline (enc dec : List Char → Option (List Char))
    (hencnl : ∀ v t, enc v = some t → ('\n') ∉ v → ('\n') ∉ t)
    (hdecnl : ∀ v t, dec v = some t → ('\n') ∉ v → ('\n') ∉ t)
    (c : List Char) :
    pySplitCh '\n' (encrypt_env_file enc c)
      = (pySplitCh '\n' c).map (encLine enc) ++ [[]] ∧
    pySplitCh '\n' (decrypt_env_file dec c)
      = (pySplitCh '\n' c).map (decLine dec) ++ [[]] := by
  constructor
  · have hLnn : (pySplitCh '\n' c).map (encLine enc) ≠ [] := by
      intro h
      exact pySplit_ne_nil '\n' c (List.map_eq_nil_iff.mp h)
    have hnlL : ∀ l ∈ (pySplitCh '\n' c).map (encLine enc), ('\n') ∉ l := by
      intro l hl
      rcases List.mem_map.mp hl with ⟨a, ha, rfl⟩
      exact encLine_no_nl enc hencnl a (mem_pySplit_not_sep '\n' c a ha)
    unfold encrypt_env_file
    rw [pySplit_append_sep '\n' _, pySplit_join '\n' _ hLnn hnlL]
  · have hLnn : (pySplitCh '\n' c).map (decLine dec) ≠ [] := by
      intro h
      exact pySplit_ne_nil '\n' c (List.map_eq_nil_iff.mp h)
    have hnlL : ∀ l ∈ (pySplitCh '\n' c).map (decLine dec), ('\n') ∉ l := by
      intro l hl
      rcases List.mem_map.mp hl with ⟨a, ha, rfl⟩
      exact decLine_no_nl dec hdecnl a (mem_pySplit_not_sep '\n' c a ha)
    unfold decrypt_env_file
    rw [pySplit_append_sep '\n' _, pySplit_join '\n' _ hLnn hnlL]

/-- Claim C3, witness: the line structure of both operations evaluated on a
concrete two-line content with the toy Fernet instance. -/
theorem c3_trailing_newline_witness :
    pySplitCh '\n' (encrypt_env_file toyEnc (("A=1\nB=2").data))
      = (pySplitCh '\n' (("A=1\nB=2").data)).map (encLine toyEnc) ++ [[]] ∧
    pySplitCh '\n' (decrypt_env_file toyDec (("A=1\nB=2").data))
      = (pySplitCh '\n' (("A=1\nB=2").data)).map (decLine toyDec) ++ [[]] :=
  c3_trailing_newline toyEnc toyDec toy_enc_nl toy_dec_nl (("A=1\nB=2").data)

/-- Claim C4, counterexample: at the level of the file content the claimed
equation fails - running encrypt_env_file twice on a content ending in a
newline does not equal running it once, because each run appends one more
newline when rejoining the lines.  The cipher is a concrete instance of the
Fernet contract; the growth comes from the join, not from re-encryption. -/
theorem c4_counterexample :
    ¬ (encrypt_env_file toyEnc (encrypt_env_file toyEnc (("A=1\n").data))
        = encrypt_env_file toyEnc (("A=1\n").data)) := by
  decide

/-- Claim C4 (amended): the second encryption pass changes no line - the
per-line map is idempotent, because values already carrying the ciphertext
marker are left unchanged - and at the level of the whole file content the
second run returns the first run's output with exactly one extra trailing
newline appended. -/
theorem c4_encrypt_idem (enc : List Char → Option (List Char))
    (hmark : ∀ v t, enc v = some t → startsWithL MARKER t = true)
    (hstrip : ∀ v t, enc v = some t → pyStrip t = t)
    (hnl : ∀ v t, enc v = some t → ('\n') ∉ v → ('\n') ∉ t)
    (ls : List (List Char)) (c : List Char) :
    encLines enc (encLines enc ls) = encLines enc ls ∧
    encrypt_env_file enc (encrypt_env_file enc c)
      = encrypt_env_file enc c ++ ['\n'] := by
  constructor
  · unfold encLines
    rw [List.map_map]
    exact List.map_congr_left (fun l _ => encLine_idem enc hmark hstrip l)
  · have hnil : encLine enc [] = [] := by
      apply encLine_guard
      left
      rfl
    have hLnn : (pySplitCh '\n' c).map (encLine enc) ≠ [] := by
      intro h
      exact pySplit_ne_nil '\n' c (List.map_eq_nil_iff.mp h)
    have hnlL : ∀ l ∈ (pySplitCh '\n' c).map (encLine enc), ('\n') ∉ l := by
      intro l hl
      rcases List.mem_map.mp hl with ⟨a, ha, rfl⟩
      exact encLine_no_nl enc hnl a (mem_pySplit_not_sep '\n' c a ha)
    have hmapidem : List.map (encLine enc ∘ encLine enc) (pySplitCh '\n' c)
        = List.map (encLine enc) (pySplitCh '\n' c) :=
      List.map_congr_left (fun l _ => encLine_idem enc hmark hstrip l)
    unfold encrypt_env_file
    rw [pySplit_append_sep '\n' _, pySplit_join '\n' _ hLnn hnlL,
        List.map_append, List.map_map, hmapidem,
        show List.map (encLine enc) [[]] = [[]] by simp [hnil],
        joinCh_concat_nil '\n' _ hLnn]

/-- Claim C4, witness: the amended statement evaluated on a concrete line
list and a concrete content with the toy Fernet instance. -/
theorem c4_encrypt_idem_witness :
    encLines toyEnc (encLines toyEnc [("A=1").data]) = encLines toyEnc [("A=1").data] ∧
    encrypt_env_file toyEnc (encrypt_env_file toyEnc (("A=1\n").data))
      = encrypt_env_file toyEnc (("A=1\n").data) ++ ['\n'] :=
  c4_encrypt_idem toyEnc toy_mark toy_strip toy_enc_nl [("A=1").data] (("A=1\n").data)

/-- Claim C5: the resolved value of a declaration in generate_env_file
follows the priority process environment, then interactive input with the
empty (stripped) response falling back to the default, then the template
default; in particular when the key is present in the environment that value
is used verbatim, whatever the interactive flag and response. -/
theorem c5_resolution_priority (envv : Option (List Char)) (interactive : Bool)
    (inp dflt : List Char) :
    (∀ v, envv = some v → resolveValue envv interactive inp dflt = v) ∧
    (envv = none → interactive = true → ¬ (pyStrip inp = []) →
      resolveValue envv interactive inp dflt = pyStrip inp) ∧
    (envv = none → interactive = true → pyStrip inp = [] →
      resolveValue envv interactive inp dflt = dflt) ∧
    (envv = none → interactive = false →
      resolveValue envv interactive inp dflt = dflt) := by
  refine ⟨?_, ?_, ?_, ?_⟩
  · intro v h
    subst h
    rfl
  · intro h1 h2 h3
    subst h1
    subst h2
    simp only [resolveValue]
    rw [if_pos trivial, if_neg h3]
  · intro h1 h2 h3
    subst h1
    subst h2
    simp only [resolveValue]
    rw [if_pos trivial, if_pos h3]
  · intro h1 h2
    subst h1
    subst h2
    simp [resolveValue]

/-- Claim C5, witness: with the key present in the environment, interactive
mode on and a nonempty response typed, the environment value wins. -/
theorem c5_resolution_priority_witness :
    resolveValue (some (("ENVV").data)) true (("typed").data) (("dflt").data)
      = ("ENVV").data :=
  (c5_resolution_priority (some (("ENVV").data)) true (("typed").data)
    (("dflt").data)).1 (("ENVV").data) rfl

/-- Claim C6: for a template declaration with required = true, validation
reduces to the per-declaration check, the message of which is
"Required variable '<key>' is missing" exactly when the key is absent from
the resolved values or maps to the empty string - the same message in both
cases - and in that case the output for the declaration is that single
message, so no type check is applied. -/
theorem c6_required_missing (u e : List Char → Bool)
    (env : List Char → Option (List Char)) (line : List Char) (d : Decl)
    (hp : parse_template_line line = some d) (hr : d.required = true) :
    validate_env_file u e env [line] = checkVar u e d.key d.ty (env d.key) ∧
    ((env d.key = none ∨ env d.key = some []) →
      validate_env_file u e env [line] = [missingMsg d.key]) ∧
    (missingMsg d.key ∈ validate_env_file u e env [line] ↔
      (env d.key = none ∨ env d.key = some [])) := by
  have hval : validate_env_file u e env [line]
      = checkVar u e d.key d.ty (env d.key) := by
    unfold validate_env_file
    simp [List.filterMap_cons, hp, buildRequired, dictInsert, hr]
  refine ⟨hval, ?_, ?_⟩
  · intro h
    rw [hval]
    exact (checkVar_missing u e d.key d.ty (env d.key)).2 h
  · rw [hval]
    exact (checkVar_missing u e d.key d.ty (env d.key)).1

/-- Claim C6, witness: a required int declaration against an empty resolved
environment produces exactly the missing message. -/
theorem c6_required_missing_witness :
    validate_env_file (fun _ => true) (fun _ => true) (fun _ => none)
      [("PORT=1  # int, required").data]
      = [missingMsg (("PORT").data)] :=
  ((c6_required_missing (fun _ => true) (fun _ => true) (fun _ => none)
      (("PORT=1  # int, required").data)
      (Decl.mk (("PORT").data) (("1").data) true false false VType.int)
      (by decide) rfl).2).1 (Or.inl rfl)

/-- Claim C7: a line whose stripped value carries the ciphertext marker but
fails to decrypt (wrong key or corrupted token, the external decrypt
returning none) passes through decrypt_env_file unchanged, while the
surrounding lines are still processed: failure is isolated per line, never
raised, and never substitutes corrupted plaintext. -/
theorem c7_decrypt_failure (dec : List Char → Option (List Char))
    (L1 L2 : List (List Char)) (l : List Char)
    (hm : startsWithL MARKER (pyStrip (splitEq l).2) = true)
    (hf : dec (pyStrip (splitEq l).2) = none) :
    decLines dec (L1 ++ l :: L2) = decLines dec L1 ++ l :: decLines dec L2 := by
  unfold decLines
  rw [List.map_append, List.map_cons, decLine_fail dec l hm hf]

/-- Claim C7, witness: a decrypt function failing on every input (a wrong
key) leaves the marked middle line unchanged while both neighbours are still
processed. -/
theorem c7_decrypt_failure_witness :
    decLines (fun _ => none)
      ([("B=1").data] ++ ("A=gAAAAABzz").data :: [("C=2").data])
      = decLines (fun _ => none) [("B=1").data] ++ ("A=gAAAAABzz").data ::
        decLines (fun _ => none) [("C=2").data] :=
  c7_decrypt_failure (fun _ => none) [("B=1").data] [("C=2").data]
    (("A=gAAAAABzz").data) (by decide) rfl

/-- Claim C8: the declared type of every parsed template line is the first
token among string, int, bool, url, email (in that fixed priority order)
contained in the lowered annotation comment, defaulting to string when none
is present - the source loop agrees with the claim's first-match policy. -/
theorem c8_type_priority (line k v c : List Char) (d : Decl)
    (hm : matchAssign (pyStrip line) = some (k, v, c))
    (hp : parse_template_line line = some d) :
    d.ty = specFirstType (pyLower c) := by
  rw [parse_eq_mkDecl line k v c d hm hp]
  simp only [mkDecl]
  exact detectType_eq_spec (pyLower c)

/-- Claim C8, witness: a comment containing both bool and int yields int,
the earlier token in the priority order, although bool appears first in the
text. -/
theorem c8_type_priority_witness :
    (Decl.mk (("A").data) (("1").data) true false false VType.int).ty
      = specFirstType (pyLower (("bool int").data)) :=
  c8_type_priority (("A=1  # bool int").data) (("A").data) (("1").data)
    (("bool int").data)
    (Decl.mk (("A").data) (("1").data) true false false VType.int)
    (by decide) (by decide)

/-- Claim C9: a template line parsing to a declaration with required = false
contributes nothing to validation - removing it from the template leaves the
validate_env_file output unchanged for every resolved environment, whatever
the presence or type of its value, because only required declarations enter
the checked dictionary. -/
theorem c9_optional_unchecked (u e : List Char → Bool)
    (env : List Char → Option (List Char)) (L1 L2 : List (List Char))
    (line : List Char) (d : Decl)
    (hp : parse_template_line line = some d) (hr : d.required = false) :
    validate_env_file u e env (L1 ++ line :: L2)
      = validate_env_file u e env (L1 ++ L2) := by
  have hfm : (L1 ++ line :: L2).filterMap parse_template_line =
      L1.filterMap parse_template_line ++
        d :: L2.filterMap parse_template_line := by
    rw [List.filterMap_append]
    congr 1
    simp [List.filterMap_cons, hp]
  have hbr : buildRequired (L1.filterMap parse_template_line ++
        d :: L2.filterMap parse_template_line)
      = buildRequired (L1.filterMap parse_template_line ++
        L2.filterMap parse_template_line) := by
    unfold buildRequired
    rw [List.foldl_append, List.foldl_append, List.foldl_cons, hr]
    simp
  unfold validate_env_file
  rw [hfm, hbr, List.filterMap_append]

/-- Claim C9, witness: removing an optional declaration from a one-line
template leaves validation of the empty environment unchanged. -/
theorem c9_optional_unchecked_witness :
    validate_env_file (fun _ => true) (fun _ => true) (fun _ => none)
      ([] ++ ("X=1  # optional").data :: [])
      = validate_env_file (fun _ => true) (fun _ => true) (fun _ => none)
        ([] ++ []) :=
  c9_optional_unchecked (fun _ => true) (fun _ => true) (fun _ => none) [] []
    (("X=1  # optional").data)
    (Decl.mk (("X").data) (("1").data) false true false VType.string)
    (by decide) rfl

/-- Claim C10: encrypt_env_file encrypts the value of every assignment line
not already carrying the ciphertext marker, unconditionally: the per-line
transform takes no declaration metadata at all, so the encrypted tag parsed
from template annotations cannot be and is not consulted, and a value is
encrypted whether or not its declaration was tagged encrypted. -/
theorem c10_unconditional_encrypt (enc : List Char → Option (List Char))
    (k v t : List Char) (hk : ('=') ∉ k)
    (hpre : startsWithL HASHP (pyStrip (k ++ '=' :: v)) = false)
    (hm : startsWithL MARKER (pyStrip v) = false)
    (he : enc (pyStrip v) = some t) :
    encLine enc (k ++ '=' :: v) = k ++ '=' :: t :=
  encLine_assign enc k v t hk hpre hm he

/-- Claim C10, witness: a concrete assignment line is encrypted by the toy
Fernet instance even though its template declaration carries no encrypted
tag. -/
theorem c10_unconditional_encrypt_witness :
    encLine toyEnc (("API_KEY").data ++ '=' :: ("abc").data)
      = ("API_KEY").data ++ '=' :: (MARKER ++ ("abc").data ++ ['E']) :=
  c10_unconditional_encrypt toyEnc (("API_KEY").data) (("abc").data)
    (MARKER ++ ("abc").data ++ ['E']) (by decide) (by decide) (by decide) rfl
